import Mathlib

/-! simple-mp3: playback controller and level meter

A shallow embedding of `pkg/levelmeter.go`, `pkg/beeeep.go` and
`pkg/utiles.go`, followed by the properties proved about them.

Go's `float64` is embedded exactly: a value is NaN, an infinity, or a finite
rational, and every arithmetic operation computes the exact rational result and
rounds it to the nearest binary64 value, ties to even (IEEE 754, the only
rounding mode Go uses).  The two zeros are identified; the source never divides
by a zero, so the sign of a zero is not observable in it.
-/

set_option linter.dupNamespace false

namespace SimpleMp3

/-! ## float64 -/

/-- A `float64` value. `fin q` is the finite value `q`. -/
inductive F64 where
  | nan : F64
  | pinf : F64
  | ninf : F64
  | fin (q : ℚ) : F64
  deriving DecidableEq

/-- Round to the nearest integer, ties to the even one. -/
def rne (x : ℚ) : ℤ :=
  if x - ⌊x⌋ < 1 / 2 then ⌊x⌋
  else if 1 / 2 < x - ⌊x⌋ then ⌊x⌋ + 1
  else if ⌊x⌋ % 2 = 0 then ⌊x⌋ else ⌊x⌋ + 1

/-- The exponent of the unit in the last place of the binary64 binade that
holds `x`: 53 significant bits, the smallest normal exponent is -1022 (below it
the subnormal spacing `2 ^ (-1074)` is used). -/
def ulpExp (x : ℚ) : ℤ := max (Int.log 2 |x|) (-1022) - 52

/-- The rational `x` rounded onto the binary64 grid, exponent unbounded above. -/
def roundQ (x : ℚ) : ℚ := (rne (x / 2 ^ ulpExp x) : ℚ) * 2 ^ ulpExp x

/-- The float64 nearest to the exact result `x`; overflow gives an infinity. -/
def F64.ofRat (x : ℚ) : F64 :=
  if 2 ^ 1024 ≤ roundQ x then F64.pinf
  else if roundQ x ≤ -(2 ^ 1024) then F64.ninf
  else F64.fin (roundQ x)

/-- The rational `q` is exactly a finite float64. -/
def isF64 (q : ℚ) : Prop := F64.ofRat q = F64.fin q

instance (q : ℚ) : Decidable (isF64 q) := by unfold isF64; infer_instance

/-- Go's conversion `float64(n)` of an integer. -/
def F64.ofInt (n : ℤ) : F64 := F64.ofRat n

/-- Unary minus. -/
def F64.neg : F64 → F64
  | F64.nan => F64.nan
  | F64.pinf => F64.ninf
  | F64.ninf => F64.pinf
  | F64.fin q => F64.fin (-q)

/-- Go's `x + y` on float64. -/
def F64.add : F64 → F64 → F64
  | F64.nan, _ => F64.nan
  | _, F64.nan => F64.nan
  | F64.pinf, F64.ninf => F64.nan
  | F64.ninf, F64.pinf => F64.nan
  | F64.pinf, _ => F64.pinf
  | _, F64.pinf => F64.pinf
  | F64.ninf, _ => F64.ninf
  | _, F64.ninf => F64.ninf
  | F64.fin x, F64.fin y => F64.ofRat (x + y)

/-- Go's `x - y` on float64. -/
def F64.sub (x y : F64) : F64 := F64.add x (F64.neg y)

/-- The infinity with the sign of `s * q`, NaN when `q` is zero
(`s = true` stands for the positive infinity). -/
def F64.infTimes (s : Bool) (q : ℚ) : F64 :=
  if q = 0 then F64.nan
  else if (0 < q) = s then F64.pinf else F64.ninf

/-- Go's `x * y` on float64. -/
def F64.mul : F64 → F64 → F64
  | F64.nan, _ => F64.nan
  | _, F64.nan => F64.nan
  | F64.pinf, F64.pinf => F64.pinf
  | F64.ninf, F64.ninf => F64.pinf
  | F64.pinf, F64.ninf => F64.ninf
  | F64.ninf, F64.pinf => F64.ninf
  | F64.pinf, F64.fin y => F64.infTimes true y
  | F64.ninf, F64.fin y => F64.infTimes false y
  | F64.fin x, F64.pinf => F64.infTimes true x
  | F64.fin x, F64.ninf => F64.infTimes false x
  | F64.fin x, F64.fin y => F64.ofRat (x * y)

/-- Go's `x / y` on float64.  A zero divisor is taken as `+0`. -/
def F64.div : F64 → F64 → F64
  | F64.nan, _ => F64.nan
  | _, F64.nan => F64.nan
  | F64.fin _, F64.pinf => F64.fin 0
  | F64.fin _, F64.ninf => F64.fin 0
  | F64.fin x, F64.fin y =>
      if y = 0 then
        (if x = 0 then F64.nan else if 0 < x then F64.pinf else F64.ninf)
      else F64.ofRat (x / y)
  | F64.pinf, F64.fin y => if 0 ≤ y then F64.pinf else F64.ninf
  | F64.ninf, F64.fin y => if 0 ≤ y then F64.ninf else F64.pinf
  | _, _ => F64.nan

/-- The square root of the rational `q ≥ 0`, rounded onto the binary64 grid
(nearest, ties to even): with `u` the unit in the last place of the result's
binade, `m = ⌊√q / u⌋` is an integer square root and the rounding direction is
decided by comparing `q / u²` with `(m + 1/2)²`. -/
def sqrtQ (q : ℚ) : ℚ :=
  let e : ℤ := max (Int.log 2 q / 2) (-1022) - 52
  let y : ℚ := q / 2 ^ (2 * e)
  let m : ℕ := Nat.sqrt ⌊y⌋₊
  let h : ℚ := (m : ℚ) + 1 / 2
  if y < h * h then (m : ℚ) * 2 ^ e
  else if h * h < y then ((m : ℚ) + 1) * 2 ^ e
  else if m % 2 = 0 then (m : ℚ) * 2 ^ e else ((m : ℚ) + 1) * 2 ^ e

/-- Go's `math.Sqrt`. -/
def F64.sqrt : F64 → F64
  | F64.nan => F64.nan
  | F64.pinf => F64.pinf
  | F64.ninf => F64.nan
  | F64.fin q => if q < 0 then F64.nan else F64.fin (sqrtQ q)

/-- Go's `x < y` on float64: false as soon as an operand is NaN. -/
def F64.lt : F64 → F64 → Bool
  | F64.nan, _ => false
  | _, F64.nan => false
  | F64.ninf, F64.ninf => false
  | F64.ninf, _ => true
  | _, F64.ninf => false
  | F64.pinf, _ => false
  | _, F64.pinf => true
  | F64.fin x, F64.fin y => decide (x < y)

/-- Go's `x > y` on float64. -/
def F64.gt (x y : F64) : Bool := F64.lt y x

/-- The float64 constant written `0.2` in the source. -/
def F64.c02 : F64 := F64.ofRat (1 / 5)

/-! ## Machine integers -/

/-- Go's `int` is 64 bits wide: the result of an addition or subtraction wraps
into `[-2^63, 2^63)`. -/
def wrap64 (x : ℤ) : ℤ := (x + 2 ^ 63) % 2 ^ 64 - 2 ^ 63

/-! ## pkg/levelmeter.go -/

/-- One stereo frame, `[2]float64`. -/
abbrev Frame := F64 × F64

/-- A sample buffer, `[][2]float64`. -/
abbrev Buf := List Frame

/-- The outcome of one `Stream(buf)` call on a `beep.Streamer`: the buffer as
the streamer left it, and the returned `(n, ok)`. -/
structure StreamResult where
  buf : Buf
  n : ℤ
  ok : Bool
  deriving DecidableEq

/-- The audio graph a track is built from.  A node names the stage and the
stage it pulls from; the mutable state of the stages lives in the `Track`. -/
inductive Streamer where
  | decoder (h : ℕ) : Streamer
  | ctrl (src : Streamer) : Streamer
  | volume (src : Streamer) : Streamer
  | meter (src : Streamer) : Streamer
  | seqCallback (src : Streamer) : Streamer
  deriving DecidableEq

/-- The struct `LevelMeter` (its locks left out). -/
structure LevelMeter where
  Src : Streamer
  SampleRate : ℕ
  rms : F64
  ema : F64
  a : F64
  deriving DecidableEq

/-- `NewLevelMeter(src, sr)`: the fields not listed are Go's zero value. -/
def NewLevelMeter (src : Streamer) (sr : ℕ) : LevelMeter :=
  { Src := src, SampleRate := sr, rms := F64.fin 0, ema := F64.fin 0, a := F64.c02 }

/-- The loop `for i := 0; i < n; i++ { l, r := buf[i][0], buf[i][1]; sum += l*l + r*r }`
with `k` iterations left, at index `i`, with the running `sum`.  `none` is the
index-out-of-range panic of `buf[i]`. -/
def LevelMeter.sumSquares (buf : Buf) : ℕ → ℕ → F64 → Option F64
  | 0, _, sum => some sum
  | k + 1, i, sum =>
    match buf.get? i with
    | none => none
    | some (l, r) =>
      LevelMeter.sumSquares buf k (i + 1) (F64.add sum (F64.add (F64.mul l l) (F64.mul r r)))

/-- `(*LevelMeter).Stream`.  `src` is what the call `m.Src.Stream(buf)` does to
the buffer and returns.  The result is the meter afterwards and the buffer and
`(n, ok)` handed back to the caller; `none` is a panic. -/
def LevelMeter.Stream (m : LevelMeter) (src : Buf → StreamResult) (buf : Buf) :
    Option (LevelMeter × StreamResult) :=
  let r := src buf
  if r.n ≤ 0 then some (m, r)
  else
    match LevelMeter.sumSquares r.buf r.n.toNat 0 (F64.fin 0) with
    | none => none
    | some sum =>
      let rms := F64.sqrt (F64.div sum (F64.mul (F64.fin 2) (F64.ofInt r.n)))
      let ema := F64.add (F64.mul m.ema (F64.sub (F64.fin 1) m.a)) (F64.mul rms m.a)
      some ({ m with ema := ema, rms := ema }, r)

/-- `(*LevelMeter).Level`: the value returned and the meter afterwards. -/
def LevelMeter.Level (m : LevelMeter) : F64 × LevelMeter :=
  let v := m.rms
  if F64.lt v (F64.fin 0) then (F64.fin 0, m)
  else if F64.gt v (F64.fin 1) then (F64.fin 1, m)
  else (v, m)

/-! ## pkg/beeeep.go -/

/-- The field of `beep.Ctrl` the player touches. -/
structure Ctrl where
  Paused : Bool
  deriving DecidableEq

/-- The fields of `effects.Volume` the player sets. -/
structure Volume where
  Base : F64
  Volume : F64
  deriving DecidableEq

/-- The struct `Track`.  `Stream` is the handle of the decoder stream,
`Format` its sample rate, `Finished` whether the channel has been closed; the
three pointer fields are `none` when nil. -/
structure Track where
  Path : String
  Stream : ℕ
  Format : ℕ
  Ctrl : Option Ctrl
  Volume : Option Volume
  Meter : Option LevelMeter
  Finished : Bool
  deriving DecidableEq

/-- The struct `Player` (its mutex left out). -/
structure Player where
  Playlist : List String
  Idx : ℤ
  Cur : Option Track
  inited : Bool
  batchSize : ℤ
  deriving DecidableEq

/-- What the player has done to the world outside it: `files` counts the files
`os.Open` has returned (a file's number is its handle, and the handle of the
stream decoding it), `closedFiles` and `closedStreams` log the `Close` calls,
`speakerInit` the arguments of the `speaker.Init` call that succeeded, and
`registered` the graphs handed to `speaker.Play`, oldest first. -/
structure World where
  files : ℕ
  closedFiles : List ℕ
  closedStreams : List ℕ
  speakerInit : Option (ℕ × ℕ)
  registered : List Streamer
  deriving DecidableEq

/-- Nothing opened, nothing registered. -/
def World.init : World :=
  { files := 0, closedFiles := [], closedStreams := [], speakerInit := none, registered := [] }

/-- How the calls out of the package answer: whether `os.Open(path)` succeeds,
the sample rate `mp3.Decode` reports for the file (`none`: it fails), and whether
`speaker.Init` succeeds for a sample rate. -/
structure Env where
  osOpen : String → Bool
  mp3Decode : String → Option ℕ
  speakerInit : ℕ → Bool

/-- The errors `openTrack` returns. -/
inductive Err where
  | indexOutOfBounds : Err
  | openFailed : Err
  | decodeFailed : Err
  | initFailed : Err
  deriving DecidableEq

/-- `NewPlayer(paths)`. -/
def NewPlayer (paths : List String) : Player :=
  { Playlist := paths, Idx := 0, Cur := none, inited := false, batchSize := 44100 / 10 }

/-- `(*Player).openTrack`. -/
def Player.openTrack (env : Env) (p : Player) (w : World) (i : ℤ) :
    Player × World × Except Err Track :=
  if i < 0 ∨ i ≥ p.Playlist.length then (p, w, Except.error Err.indexOutOfBounds)
  else
    let path := p.Playlist.getD i.toNat ""
    if !env.osOpen path then (p, w, Except.error Err.openFailed)
    else
      let h := w.files
      let w := { w with files := h + 1 }
      match env.mp3Decode path with
      | none => (p, { w with closedFiles := w.closedFiles ++ [h] }, Except.error Err.decodeFailed)
      | some sr =>
        if !p.inited ∧ !env.speakerInit sr then
          (p, { w with closedStreams := w.closedStreams ++ [h],
                       closedFiles := w.closedFiles ++ [h] }, Except.error Err.initFailed)
        else
          let w := if !p.inited then { w with speakerInit := some (sr, sr / 10) } else w
          let p := { p with inited := true }
          let ctrl := Streamer.ctrl (Streamer.decoder h)
          let vol := Streamer.volume ctrl
          let meter := NewLevelMeter vol sr
          let w := { w with registered := w.registered ++ [Streamer.seqCallback vol] }
          (p, w, Except.ok
            { Path := path, Stream := h, Format := sr,
              Ctrl := some { Paused := false },
              Volume := some { Base := F64.fin 2, Volume := F64.fin 0 },
              Meter := some meter, Finished := false })

/-- `(*Player).closeCurrent`. -/
def Player.closeCurrent (p : Player) (w : World) : Player × World :=
  match p.Cur with
  | none => (p, w)
  | some t => ({ p with Cur := none }, { w with closedStreams := w.closedStreams ++ [t.Stream] })

/-- `(*Player).Play`: the state afterwards and the error returned (`none`: nil). -/
def Player.Play (env : Env) (p : Player) (w : World) (i : ℤ) : Player × World × Option Err :=
  let (p, w) := Player.closeCurrent p w
  match Player.openTrack env p w i with
  | (p, w, Except.error e) => (p, w, some e)
  | (p, w, Except.ok t) => ({ p with Idx := i, Cur := some t }, w, none)

/-- `(*Player).PauseToggle`; `none` is the nil dereference of `p.Cur.Ctrl`. -/
def Player.PauseToggle (p : Player) : Option Player :=
  match p.Cur with
  | none => some p
  | some t =>
    match t.Ctrl with
    | none => none
    | some c => some { p with Cur := some { t with Ctrl := some { c with Paused := !c.Paused } } }

/-- `(*Player).Next`. -/
def Player.Next (env : Env) (p : Player) (w : World) : Player × World × Option Err :=
  if p.Playlist.length = 0 then (p, w, none)
  else Player.Play env p w (Int.tmod (wrap64 (p.Idx + 1)) p.Playlist.length)

/-- `(*Player).Prev`. -/
def Player.Prev (env : Env) (p : Player) (w : World) : Player × World × Option Err :=
  if p.Playlist.length = 0 then (p, w, none)
  else Player.Play env p w
    (Int.tmod (wrap64 (wrap64 (p.Idx - 1) + p.Playlist.length)) p.Playlist.length)

/-- `(*Player).CurrentLevel`: the value returned and the player afterwards. -/
def Player.CurrentLevel (p : Player) : F64 × Player :=
  match p.Cur with
  | none => (F64.fin 0, p)
  | some t =>
    match t.Meter with
    | none => (F64.fin 0, p)
    | some m =>
      if (match t.Ctrl with
          | some c => c.Paused
          | none => false) then (F64.fin 0, p)
      else
        let (v, m) := LevelMeter.Level m
        (v, { p with Cur := some { t with Meter := some m } })

/-! ## The graph as the sink pulls it

The stages come from the `beep` library; they are modelled as far as the
player relies on them. -/

/-- One `Stream(buf)` call on a stage of the graph of track `t`.  `dec` is what
the decoder does with the buffer it is handed, `pow` is `math.Pow`.  A paused
`beep.Ctrl` fills the buffer with silence without pulling its source; an
`effects.Volume` scales the `n` frames its source delivered; the meter stage is
`(*LevelMeter).Stream`; `beep.Seq(s, beep.Callback(f))` pulls `s` and runs `f`
(which closes `Finished`) once `s` is drained.  `none` is a panic. -/
def Streamer.Stream (pow : F64 → F64 → F64) (dec : Buf → StreamResult) :
    Streamer → Track → Buf → Option (Track × StreamResult)
  | Streamer.decoder _, t, buf => some (t, dec buf)
  | Streamer.ctrl src, t, buf =>
    match t.Ctrl with
    | none => none
    | some c =>
      if c.Paused then
        some (t, { buf := buf.map (fun _ => (F64.fin 0, F64.fin 0)), n := buf.length, ok := true })
      else Streamer.Stream pow dec src t buf
  | Streamer.volume src, t, buf =>
    match t.Volume with
    | none => none
    | some v =>
      match Streamer.Stream pow dec src t buf with
      | none => none
      | some (t, r) =>
        let gain := pow v.Base v.Volume
        let scaled := (r.buf.take r.n.toNat).map (fun f => (F64.mul f.1 gain, F64.mul f.2 gain))
        some (t, { buf := scaled ++ r.buf.drop r.n.toNat, n := r.n, ok := r.ok })
  | Streamer.meter src, t, buf =>
    match Streamer.Stream pow dec src t buf with
    | none => none
    | some (t, r) =>
      match t.Meter with
      | none => none
      | some m =>
        match LevelMeter.Stream m (fun _ => r) buf with
        | none => none
        | some (m, r) => some ({ t with Meter := some m }, r)
  | Streamer.seqCallback src, t, buf =>
    match Streamer.Stream pow dec src t buf with
    | none => none
    | some (t, r) => if r.ok then some (t, r) else some ({ t with Finished := true }, r)

/-- The sink pulls one block through graph `g` of the current track. -/
def Player.pull (pow : F64 → F64 → F64) (g : Streamer) (p : Player)
    (dec : Buf → StreamResult) (buf : Buf) : Option Player :=
  match p.Cur with
  | none => some p
  | some t =>
    match Streamer.Stream pow dec g t buf with
    | none => none
    | some (t, _) => some { p with Cur := some t }

/-- The sink pulls a run of blocks through graph `g`, one per entry of `pulls`
(what the decoder delivers, and the buffer handed in). -/
def Player.pulls (pow : F64 → F64 → F64) (g : Streamer) :
    Player → List ((Buf → StreamResult) × Buf) → Option Player
  | p, [] => some p
  | p, (dec, buf) :: rest =>
    match Player.pull pow g p dec buf with
    | none => none
    | some p => Player.pulls pow g p rest

/-! ## pkg/utiles.go -/

/-- The graph `openTrack` hands to `speaker.Play` for the stream with handle `h`:
`beep.Seq(vol, beep.Callback(...))` with `vol` on `ctrl` on the decoder. -/
def installedGraph (h : ℕ) : Streamer :=
  Streamer.seqCallback (Streamer.volume (Streamer.ctrl (Streamer.decoder h)))

/-- `Play(i)` for each `i` of the list in turn, stopping at the first error. -/
def Player.plays (env : Env) : Player → World → List ℤ → Player × World × Option Err
  | p, w, [] => (p, w, none)
  | p, w, i :: rest =>
    match Player.Play env p w i with
    | (p, w, none) => Player.plays env p w rest
    | (p, w, some e) => (p, w, some e)

/-- `Next()` called `k` times in a row, stopping at the first error. -/
def Player.nexts (env : Env) : ℕ → Player → World → Player × World × Option Err
  | 0, p, w => (p, w, none)
  | k + 1, p, w =>
    match Player.Next env p w with
    | (p, w, none) => Player.nexts env k p w
    | (p, w, some e) => (p, w, some e)

/-- A run of `Next()` (`true`) and `Prev()` (`false`) calls, stopping at the
first error. -/
def Player.transport (env : Env) : Player → World → List Bool → Player × World × Option Err
  | p, w, [] => (p, w, none)
  | p, w, b :: rest =>
    match (if b then Player.Next env p w else Player.Prev env p w) with
    | (p, w, none) => Player.transport env p w rest
    | (p, w, some e) => (p, w, some e)

/-- Every track of the list can be played: its file opens and decodes, and the
sink accepts its sample rate. -/
def Env.playable (env : Env) (paths : List String) : Prop :=
  ∀ path ∈ paths, env.osOpen path = true ∧
    ∃ sr, env.mp3Decode path = some sr ∧ env.speakerInit sr = true

/-- An environment in which every call out of the package succeeds and every
file decodes at 44100 Hz. -/
def Env.allOk : Env :=
  { osOpen := fun _ => true, mp3Decode := fun _ => some 44100, speakerInit := fun _ => true }

/-- The two-track playlist of the spec's scenarios. -/
def demoPlaylist : List String := ["a.mp3", "b.mp3"]

/-- The track `openTrack` builds for path `path`, handle `h` and sample rate `sr`. -/
def freshTrack (path : String) (h sr : ℕ) : Track :=
  { Path := path, Stream := h, Format := sr,
    Ctrl := some { Paused := false },
    Volume := some { Base := F64.fin 2, Volume := F64.fin 0 },
    Meter := some (NewLevelMeter (Streamer.volume (Streamer.ctrl (Streamer.decoder h))) sr),
    Finished := false }

/-- The world after a `Play` that succeeds. -/
def worldAfterPlay (p : Player) (w : World) (sr : ℕ) : World :=
  { files := w.files + 1,
    closedFiles := w.closedFiles,
    closedStreams := w.closedStreams ++
      (match p.Cur with
       | some t => [t.Stream]
       | none => []),
    speakerInit := if p.inited then w.speakerInit else some (sr, sr / 10),
    registered := w.registered ++ [installedGraph w.files] }

/-- The handles of the streams the world has seen closed, followed by the
current track's, are `0 .. k-1`; `k` files have been opened and the graph of
each has been handed to the sink. -/
def Tidy (k : ℕ) (p : Player) (w : World) : Prop :=
  w.files = k ∧ w.registered = (List.range k).map installedGraph ∧
  w.closedStreams ++ (match p.Cur with
                      | some t => [t.Stream]
                      | none => []) = List.range k

/-- The claim's `sum_{i<n} (l_i^2 + r_i^2)` over the frames, in float64
arithmetic, the frames added in order. -/
def specSum (frames : List Frame) : F64 :=
  frames.foldl (fun s f => F64.add s (F64.add (F64.mul f.1 f.1) (F64.mul f.2 f.2))) (F64.fin 0)

/-- The claim's `rms = sqrt(sum / (2n))` in float64 arithmetic. -/
def specRms (frames : List Frame) (n : ℤ) : F64 :=
  F64.sqrt (F64.div (specSum frames) (F64.mul (F64.fin 2) (F64.ofInt n)))

/-- The claim's `ema*(1-a) + rms*a` in float64 arithmetic. -/
def specEma (ema a rms : F64) : F64 :=
  F64.add (F64.mul ema (F64.sub (F64.fin 1) a)) (F64.mul rms a)

/-- The track `freshTrack "a.mp3" 0 44100` with its meter at the float64 `0.2`. -/
def loudTrack : Track :=
  { freshTrack "a.mp3" 0 44100 with
    Meter := some { NewLevelMeter (Streamer.volume (Streamer.ctrl (Streamer.decoder 0))) 44100 with
                    ema := F64.fin (3602879701896397 / 2 ^ 54),
                    rms := F64.fin (3602879701896397 / 2 ^ 54) } }

/-- The player of the spec's scenario after `Play(0)` has succeeded. -/
def playingDemo : Player :=
  { Playlist := demoPlaylist, Idx := 0, inited := true, batchSize := 44100 / 10,
    Cur := some (freshTrack "a.mp3" 0 44100) }

/-- The world after that `Play(0)`: one file opened, its graph handed to the sink. -/
def playingWorld : World :=
  { files := 1, closedFiles := [], closedStreams := [], speakerInit := some (44100, 4410),
    registered := [installedGraph 0] }

/-- A player whose current track has a nil `Ctrl`. -/
def nilCtrlPlayer : Player :=
  { Playlist := demoPlaylist, Idx := 0, inited := true, batchSize := 44100 / 10,
    Cur := some { Path := "a.mp3", Stream := 0, Format := 44100, Ctrl := none,
                  Volume := some { Base := F64.fin 2, Volume := F64.fin 0 },
                  Meter := some (NewLevelMeter
                    (Streamer.volume (Streamer.ctrl (Streamer.decoder 0))) 44100),
                  Finished := false } }

/-- A meter whose stored level has overshot to `3/2`. -/
def hotMeter : LevelMeter :=
  { NewLevelMeter (Streamer.decoder 0) 44100 with ema := F64.fin (3 / 2), rms := F64.fin (3 / 2) }

/-! ## Properties -/

theorem F64.lt_fin_fin (x y : ℚ) : F64.lt (F64.fin x) (F64.fin y) = decide (x < y) := rfl

/-- C5, as amended: for every meter whose stored level is not NaN, `Level()`
returns a value in `[0, 1]`: `0` if the stored value is below 0, `1` if it is
above 1, the stored value itself otherwise; and it does not modify the meter.
(The three clamp cases hold for NaN too, where the value returned is NaN.) -/
theorem Level_clamps (m : LevelMeter) (h : m.rms ≠ F64.nan) :
    (∃ q : ℚ, 0 ≤ q ∧ q ≤ 1 ∧ (LevelMeter.Level m).1 = F64.fin q) ∧
    (F64.lt m.rms (F64.fin 0) = true → (LevelMeter.Level m).1 = F64.fin 0) ∧
    (F64.lt m.rms (F64.fin 0) = false → F64.gt m.rms (F64.fin 1) = true →
      (LevelMeter.Level m).1 = F64.fin 1) ∧
    (F64.lt m.rms (F64.fin 0) = false → F64.gt m.rms (F64.fin 1) = false →
      (LevelMeter.Level m).1 = m.rms) ∧
    (LevelMeter.Level m).2 = m := by
  obtain ⟨src, sr, rms, ema, a⟩ := m
  simp only at h
  refine ⟨?_, ?_, ?_, ?_, ?_⟩
  · cases rms with
    | nan => exact absurd rfl h
    | pinf => exact ⟨1, by norm_num, le_refl _, by simp [LevelMeter.Level, F64.lt, F64.gt]⟩
    | ninf => exact ⟨0, le_refl _, by norm_num, by simp [LevelMeter.Level, F64.lt, F64.gt]⟩
    | fin q =>
      by_cases h0 : q < 0
      · exact ⟨0, le_refl _, by norm_num, by simp [LevelMeter.Level, F64.lt, h0]⟩
      · by_cases h1 : 1 < q
        · exact ⟨1, by norm_num, le_refl _, by simp [LevelMeter.Level, F64.lt, F64.gt, h0, h1]⟩
        · exact ⟨q, not_lt.mp h0, not_lt.mp h1, by simp [LevelMeter.Level, F64.lt, F64.gt, h0, h1]⟩
  · intro h0; simp [LevelMeter.Level, h0]
  · intro h0 h1; simp [LevelMeter.Level, h0, h1]
  · intro h0 h1; simp [LevelMeter.Level, h0, h1]
  · simp only [LevelMeter.Level]; split_ifs <;> rfl

/-- C5, at a meter whose stored level is `3/2`: the hypothesis holds, `Level()`
returns `1`, which lies in `[0, 1]`, and the meter is unchanged. -/
theorem Level_clamps_witness :
    hotMeter.rms ≠ F64.nan ∧
    (∃ q : ℚ, 0 ≤ q ∧ q ≤ 1 ∧ (LevelMeter.Level hotMeter).1 = F64.fin q) ∧
    (LevelMeter.Level hotMeter).1 = F64.fin 1 ∧
    (LevelMeter.Level hotMeter).2 = hotMeter :=
  ⟨by simp [hotMeter],
   (Level_clamps hotMeter (by simp [hotMeter])).1,
   (Level_clamps hotMeter (by simp [hotMeter])).2.2.1 (by decide!) (by decide!),
   (Level_clamps hotMeter (by simp [hotMeter])).2.2.2.2⟩

/-- C5 fails at NaN: a meter whose stored level is NaN returns no value of
`[0, 1]` (both comparisons are false and NaN itself is returned). -/
theorem Level_nan_not_clamped :
    ¬ ∃ q : ℚ, 0 ≤ q ∧ q ≤ 1 ∧
      (LevelMeter.Level { Src := Streamer.decoder 0, SampleRate := 44100, rms := F64.nan,
                          ema := F64.nan, a := F64.c02 }).1 = F64.fin q := by
  simp [LevelMeter.Level, F64.lt, F64.gt]

/-- C6: `CurrentLevel()` returns 0 when there is no current track, when the
current track has no meter, and when the current track is paused; in every
other case (its `Ctrl` is nil or not paused) it returns the meter's `Level()`;
and it leaves the player as it was. -/
theorem CurrentLevel_spec (p : Player) :
    (p.Cur = none → (Player.CurrentLevel p).1 = F64.fin 0) ∧
    (∀ t, p.Cur = some t → t.Meter = none → (Player.CurrentLevel p).1 = F64.fin 0) ∧
    (∀ t c, p.Cur = some t → t.Ctrl = some c → c.Paused = true →
      (Player.CurrentLevel p).1 = F64.fin 0) ∧
    (∀ t m, p.Cur = some t → t.Meter = some m →
      (t.Ctrl = none ∨ ∃ c, t.Ctrl = some c ∧ c.Paused = false) →
      (Player.CurrentLevel p).1 = (LevelMeter.Level m).1) ∧
    (Player.CurrentLevel p).2 = p := by
  obtain ⟨pl, idx, cur, ini, bs⟩ := p
  refine ⟨?_, ?_, ?_, ?_, ?_⟩
  · rintro h; simp only at h; subst h; rfl
  · rintro t h hm; simp only at h; subst h; simp [Player.CurrentLevel, hm]
  · rintro t c h hc hp; simp only at h; subst h
    simp only [Player.CurrentLevel, hc, hp]
    cases t.Meter <;> simp
  · rintro t m h hm hc; simp only at h; subst h
    rcases hc with hc | ⟨c, hc, hp⟩
    · simp [Player.CurrentLevel, hm, hc]
    · simp [Player.CurrentLevel, hm, hc, hp]
  · cases cur with
    | none => rfl
    | some t =>
      obtain ⟨pa, st, fo, ct, vo, me, fi⟩ := t
      cases me with
      | none => rfl
      | some m =>
        have hm : (LevelMeter.Level m).2 = m := by
          simp only [LevelMeter.Level]; split_ifs <;> rfl
        simp only [Player.CurrentLevel]
        split_ifs
        · rfl
        · simp [hm]

theorem wrap64_id (x : ℤ) (h1 : -(2 ^ 63) ≤ x) (h2 : x < 2 ^ 63) : wrap64 x = x := by
  unfold wrap64
  rw [Int.emod_eq_of_lt (by linarith) (by linarith)]
  ring

theorem Play_ok (env : Env) (p : Player) (w : World) (i : ℤ) (sr : ℕ)
    (h0 : 0 ≤ i) (h1 : i < p.Playlist.length)
    (hopen : env.osOpen (p.Playlist.getD i.toNat "") = true)
    (hdec : env.mp3Decode (p.Playlist.getD i.toNat "") = some sr)
    (hinit : p.inited = true ∨ env.speakerInit sr = true) :
    Player.Play env p w i
      = ({ p with Idx := i, inited := true,
                  Cur := some (freshTrack (p.Playlist.getD i.toNat "") w.files sr) },
         worldAfterPlay p w sr, none) := by
  obtain ⟨pl, idx, cur, ini, bs⟩ := p
  simp only [List.getD_eq_getElem?_getD] at h1 hopen hdec hinit
  have hb1 : ¬ i < 0 := not_lt.mpr h0
  have hb2 : ¬ (pl.length : ℤ) ≤ i := not_le.mpr h1
  cases cur with
  | none =>
    cases ini with
    | true =>
      simp [Player.Play, Player.closeCurrent, Player.openTrack, freshTrack, worldAfterPlay,
        installedGraph, hb1, hb2, hopen, hdec]
    | false =>
      have hi : env.speakerInit sr = true := by simpa using hinit
      simp [Player.Play, Player.closeCurrent, Player.openTrack, freshTrack, worldAfterPlay,
        installedGraph, hb1, hb2, hopen, hdec, hi]
  | some t =>
    cases ini with
    | true =>
      simp [Player.Play, Player.closeCurrent, Player.openTrack, freshTrack, worldAfterPlay,
        installedGraph, hb1, hb2, hopen, hdec]
    | false =>
      have hi : env.speakerInit sr = true := by simpa using hinit
      simp [Player.Play, Player.closeCurrent, Player.openTrack, freshTrack, worldAfterPlay,
        installedGraph, hb1, hb2, hopen, hdec, hi]

theorem Play_inv (env : Env) (p : Player) (w : World) (i : ℤ)
    (h : (Player.Play env p w i).2.2 = none) :
    0 ≤ i ∧ i < p.Playlist.length ∧ ∃ sr,
      Player.Play env p w i
        = ({ p with Idx := i, inited := true,
                    Cur := some (freshTrack (p.Playlist.getD i.toNat "") w.files sr) },
           worldAfterPlay p w sr, none) := by
  by_cases hb : i < 0 ∨ i ≥ (p.Playlist.length : ℤ)
  · exfalso
    obtain ⟨pl, idx, cur, ini, bs⟩ := p
    cases cur <;> simp [Player.Play, Player.closeCurrent, Player.openTrack, hb] at h
  · push_neg at hb
    refine ⟨hb.1, hb.2, ?_⟩
    by_cases hopen : env.osOpen (p.Playlist.getD i.toNat "") = true
    · cases hdec : env.mp3Decode (p.Playlist.getD i.toNat "") with
      | none =>
        exfalso
        obtain ⟨pl, idx, cur, ini, bs⟩ := p
        have hb1 : ¬ i < 0 := not_lt.mpr hb.1
        have hb2 : ¬ (pl.length : ℤ) ≤ i := not_le.mpr hb.2
        simp only [List.getD_eq_getElem?_getD] at hopen hdec
        cases cur <;>
        simp [Player.Play, Player.closeCurrent, Player.openTrack, hb1, hb2, hopen, hdec] at h
      | some sr =>
        by_cases hinit : p.inited = true ∨ env.speakerInit sr = true
        · exact ⟨sr, Play_ok env p w i sr hb.1 hb.2 hopen hdec hinit⟩
        · exfalso
          push_neg at hinit
          obtain ⟨pl, idx, cur, ini, bs⟩ := p
          have hb1 : ¬ i < 0 := not_lt.mpr hb.1
          have hb2 : ¬ (pl.length : ℤ) ≤ i := not_le.mpr hb.2
          simp only [List.getD_eq_getElem?_getD] at hopen hdec hinit
          obtain ⟨hi1, hi2⟩ := hinit
          have hi1' : ini = false := by simpa using hi1
          have hi2' : env.speakerInit sr = false := by simpa using hi2
          cases cur <;>
          simp [Player.Play, Player.closeCurrent, Player.openTrack, hb1, hb2, hopen, hdec, hi1',
            hi2'] at h
    · exfalso
      obtain ⟨pl, idx, cur, ini, bs⟩ := p
      have hb1 : ¬ i < 0 := not_lt.mpr hb.1
      have hb2 : ¬ (pl.length : ℤ) ≤ i := not_le.mpr hb.2
      simp only [List.getD_eq_getElem?_getD] at hopen
      have hopen' : env.osOpen (pl[i.toNat]?.getD "") = false := by simpa using hopen
      cases cur <;>
      simp [Player.Play, Player.closeCurrent, Player.openTrack, hb1, hb2, hopen'] at h

theorem Play_playable (env : Env) (p : Player) (w : World) (i : ℤ)
    (hplay : env.playable p.Playlist) (h0 : 0 ≤ i) (h1 : i < p.Playlist.length) :
    (Player.Play env p w i).2.2 = none ∧ (Player.Play env p w i).1.Idx = i ∧
    (Player.Play env p w i).1.Playlist = p.Playlist := by
  have hlt : i.toNat < p.Playlist.length := by omega
  have hmem : p.Playlist.getD i.toNat "" ∈ p.Playlist := by
    rw [List.getD_eq_getElem _ _ hlt]
    exact List.getElem_mem _
  obtain ⟨hopen, sr, hdec, hinit⟩ := hplay _ hmem
  rw [Play_ok env p w i sr h0 h1 hopen hdec (Or.inr hinit)]
  exact ⟨rfl, rfl, rfl⟩

theorem Next_eq (env : Env) (p : Player) (w : World)
    (hbig : (p.Playlist.length : ℤ) < 2 ^ 62) (h0 : 0 ≤ p.Idx)
    (h1 : p.Idx < p.Playlist.length) :
    Player.Next env p w = Player.Play env p w ((p.Idx + 1) % p.Playlist.length) := by
  unfold Player.Next
  have hne : ¬ p.Playlist.length = 0 := by omega
  rw [if_neg hne, wrap64_id _ (by linarith) (by linarith),
    Int.tmod_eq_emod (by linarith) (by linarith)]

theorem Prev_eq (env : Env) (p : Player) (w : World)
    (hbig : (p.Playlist.length : ℤ) < 2 ^ 62) (h0 : 0 ≤ p.Idx)
    (h1 : p.Idx < p.Playlist.length) :
    Player.Prev env p w = Player.Play env p w ((p.Idx - 1 + p.Playlist.length) % p.Playlist.length) := by
  unfold Player.Prev
  have hne : ¬ p.Playlist.length = 0 := by omega
  rw [if_neg hne, wrap64_id (p.Idx - 1) (by linarith) (by linarith),
    wrap64_id _ (by linarith) (by linarith),
    Int.tmod_eq_emod (by linarith) (by linarith)]

theorem nexts_idx (env : Env) (k : ℕ) (p : Player) (w : World)
    (hplay : env.playable p.Playlist) (hbig : (p.Playlist.length : ℤ) < 2 ^ 62)
    (h0 : 0 ≤ p.Idx) (h1 : p.Idx < p.Playlist.length) :
    (Player.nexts env k p w).2.2 = none ∧
    (Player.nexts env k p w).1.Idx = (p.Idx + k) % p.Playlist.length := by
  induction k generalizing p w with
  | zero =>
    simp only [Player.nexts, Nat.cast_zero, add_zero]
    exact ⟨trivial, (Int.emod_eq_of_lt h0 h1).symm⟩
  | succ k ih =>
    have hpos : (0 : ℤ) < p.Playlist.length := by linarith
    obtain ⟨e1, e2, e3⟩ := Play_playable env p w ((p.Idx + 1) % p.Playlist.length) hplay
      (Int.emod_nonneg _ (ne_of_gt hpos)) (Int.emod_lt_of_pos _ hpos)
    rw [← Next_eq env p w hbig h0 h1] at e1 e2 e3
    rcases hn : Player.Next env p w with ⟨q, w', e⟩
    rw [hn] at e1 e2 e3
    simp only at e1 e2 e3
    subst e1
    simp only [Player.nexts, hn]
    have hq := ih q w' (by rw [e3]; exact hplay) (by rw [e3]; exact hbig)
      (by rw [e2]; exact Int.emod_nonneg _ (ne_of_gt hpos))
      (by rw [e2, e3]; exact Int.emod_lt_of_pos _ hpos)
    refine ⟨hq.1, ?_⟩
    rw [hq.2, e2, e3]
    push_cast
    rw [Int.emod_add_emod]
    congr 1
    ring

theorem transport_idx (env : Env) (ops : List Bool) (p : Player) (w : World)
    (hplay : env.playable p.Playlist) (hbig : (p.Playlist.length : ℤ) < 2 ^ 62)
    (h0 : 0 ≤ p.Idx) (h1 : p.Idx < p.Playlist.length) :
    (Player.transport env p w ops).2.2 = none ∧
    0 ≤ (Player.transport env p w ops).1.Idx ∧
    (Player.transport env p w ops).1.Idx < p.Playlist.length := by
  induction ops generalizing p w with
  | nil => exact ⟨rfl, h0, h1⟩
  | cons b rest ih =>
    have hpos : (0 : ℤ) < p.Playlist.length := by linarith
    have hstep : ∃ q w', (if b then Player.Next env p w else Player.Prev env p w) = (q, w', none) ∧
        q.Playlist = p.Playlist ∧ 0 ≤ q.Idx ∧ q.Idx < p.Playlist.length := by
      cases b with
      | true =>
        obtain ⟨e1, e2, e3⟩ := Play_playable env p w ((p.Idx + 1) % p.Playlist.length) hplay
          (Int.emod_nonneg _ (ne_of_gt hpos)) (Int.emod_lt_of_pos _ hpos)
        rw [← Next_eq env p w hbig h0 h1] at e1 e2 e3
        rcases hn : Player.Next env p w with ⟨q, w', e⟩
        rw [hn] at e1 e2 e3
        simp only at e1 e2 e3
        subst e1
        exact ⟨q, w', by simp [hn], e3, by rw [e2]; exact Int.emod_nonneg _ (ne_of_gt hpos),
          by rw [e2]; exact Int.emod_lt_of_pos _ hpos⟩
      | false =>
        obtain ⟨e1, e2, e3⟩ := Play_playable env p w
          ((p.Idx - 1 + p.Playlist.length) % p.Playlist.length) hplay
          (Int.emod_nonneg _ (ne_of_gt hpos)) (Int.emod_lt_of_pos _ hpos)
        rw [← Prev_eq env p w hbig h0 h1] at e1 e2 e3
        rcases hn : Player.Prev env p w with ⟨q, w', e⟩
        rw [hn] at e1 e2 e3
        simp only at e1 e2 e3
        subst e1
        exact ⟨q, w', by simp [hn], e3, by rw [e2]; exact Int.emod_nonneg _ (ne_of_gt hpos),
          by rw [e2]; exact Int.emod_lt_of_pos _ hpos⟩
    obtain ⟨q, w', hq, e3, q0, q1⟩ := hstep
    simp only [Player.transport, hq]
    have := ih q w' (by rw [e3]; exact hplay) (by rw [e3]; exact hbig) q0 (by rw [e3]; exact q1)
    rw [e3] at this
    exact this

/-- C3: on a playlist of length `N ≥ 1` whose tracks all play, `N` calls of
`Next()` from `Idx = 0` succeed and leave `Idx = 0`, and `Prev()` from `Idx = 0`
gives `Idx = N - 1`; from any `Idx` in `[0, N)`, `Next()` sets `Idx` to
`(Idx + 1) mod N`, `Prev()` sets it to `(Idx - 1 + N) mod N`, and after any run
of `Next()` and `Prev()` calls `Idx` is still in `[0, N)`.  (`N < 2^62` holds
of every Go slice of strings.) -/
theorem index_wraparound (env : Env) (p : Player) (w : World)
    (hN : 1 ≤ p.Playlist.length) (hbig : (p.Playlist.length : ℤ) < 2 ^ 62)
    (hplay : env.playable p.Playlist) :
    (p.Idx = 0 →
      (Player.nexts env p.Playlist.length p w).2.2 = none ∧
      (Player.nexts env p.Playlist.length p w).1.Idx = 0 ∧
      (Player.Prev env p w).2.2 = none ∧
      (Player.Prev env p w).1.Idx = (p.Playlist.length : ℤ) - 1) ∧
    (0 ≤ p.Idx → p.Idx < p.Playlist.length →
      (Player.Next env p w).2.2 = none ∧
      (Player.Next env p w).1.Idx = (p.Idx + 1) % p.Playlist.length ∧
      (Player.Prev env p w).2.2 = none ∧
      (Player.Prev env p w).1.Idx = (p.Idx - 1 + p.Playlist.length) % p.Playlist.length ∧
      ∀ ops : List Bool,
        (Player.transport env p w ops).2.2 = none ∧
        0 ≤ (Player.transport env p w ops).1.Idx ∧
        (Player.transport env p w ops).1.Idx < p.Playlist.length) := by
  have hpos : (0 : ℤ) < p.Playlist.length := by exact_mod_cast hN
  have step : 0 ≤ p.Idx → p.Idx < p.Playlist.length →
      (Player.Next env p w).2.2 = none ∧
      (Player.Next env p w).1.Idx = (p.Idx + 1) % p.Playlist.length ∧
      (Player.Prev env p w).2.2 = none ∧
      (Player.Prev env p w).1.Idx = (p.Idx - 1 + p.Playlist.length) % p.Playlist.length := by
    intro h0 h1
    obtain ⟨a1, a2, _⟩ := Play_playable env p w ((p.Idx + 1) % p.Playlist.length) hplay
      (Int.emod_nonneg _ (ne_of_gt hpos)) (Int.emod_lt_of_pos _ hpos)
    obtain ⟨b1, b2, _⟩ := Play_playable env p w
      ((p.Idx - 1 + p.Playlist.length) % p.Playlist.length) hplay
      (Int.emod_nonneg _ (ne_of_gt hpos)) (Int.emod_lt_of_pos _ hpos)
    rw [← Next_eq env p w hbig h0 h1] at a1 a2
    rw [← Prev_eq env p w hbig h0 h1] at b1 b2
    exact ⟨a1, a2, b1, b2⟩
  constructor
  · intro hidx
    have h0 : 0 ≤ p.Idx := by rw [hidx]
    have h1 : p.Idx < p.Playlist.length := by rw [hidx]; exact hpos
    obtain ⟨n1, n2⟩ := nexts_idx env p.Playlist.length p w hplay hbig h0 h1
    obtain ⟨_, _, s3, s4⟩ := step h0 h1
    refine ⟨n1, ?_, s3, ?_⟩
    · rw [n2, hidx]; simp
    · rw [s4, hidx]
      have : (0 - 1 + (p.Playlist.length : ℤ)) = (p.Playlist.length : ℤ) - 1 := by ring
      rw [this]
      exact Int.emod_eq_of_lt (by linarith) (by linarith)
  · intro h0 h1
    obtain ⟨s1, s2, s3, s4⟩ := step h0 h1
    exact ⟨s1, s2, s3, s4, fun ops => transport_idx env ops p w hplay hbig h0 h1⟩

theorem allOk_playable (paths : List String) : Env.allOk.playable paths := by
  intro path _
  exact ⟨rfl, 44100, rfl, rfl⟩

/-- C3 on the two-track playlist: two `Next()` calls return to index 0 and
`Prev()` from index 0 lands on index 1. -/
theorem index_wraparound_witness :
    (Player.nexts Env.allOk 2 (NewPlayer demoPlaylist) World.init).1.Idx = 0 ∧
    (Player.Prev Env.allOk (NewPlayer demoPlaylist) World.init).1.Idx = 1 :=
  ⟨((index_wraparound Env.allOk (NewPlayer demoPlaylist) World.init (by decide) (by decide)
      (allOk_playable _)).1 rfl).2.1,
   ((index_wraparound Env.allOk (NewPlayer demoPlaylist) World.init (by decide) (by decide)
      (allOk_playable _)).1 rfl).2.2.2⟩

theorem plays_tidy (env : Env) (is : List ℤ) (p : Player) (w : World) (k : ℕ)
    (p' : Player) (w' : World) (ht : Tidy k p w)
    (h : Player.plays env p w is = (p', w', none)) :
    Tidy (k + is.length) p' w' ∧ p'.Playlist = p.Playlist ∧
    ∀ hne : is ≠ [], p'.Idx = is.getLast hne ∧
      ∃ t, p'.Cur = some t ∧ t.Path = p.Playlist.getD (is.getLast hne).toNat "" ∧
        t.Stream + 1 = k + is.length := by
  induction is generalizing p w k with
  | nil =>
    simp only [Player.plays, Prod.mk.injEq] at h
    obtain ⟨rfl, rfl, _⟩ := h
    exact ⟨by simpa using ht, rfl, fun hne => absurd rfl hne⟩
  | cons i rest ih =>
    rcases hp : Player.Play env p w i with ⟨q, v, e⟩
    cases e with
    | some e => simp [Player.plays, hp] at h
    | none =>
      simp only [Player.plays, hp] at h
      obtain ⟨h0, h1, sr, heq⟩ := Play_inv env p w i (by rw [hp])
      rw [hp] at heq
      simp only [Prod.mk.injEq, and_true] at heq
      obtain ⟨hq, hv⟩ := heq
      obtain ⟨t1, t2, t3⟩ := ht
      have hq' : Tidy (k + 1) q v := by
        subst hq hv
        refine ⟨?_, ?_, ?_⟩
        · simp [worldAfterPlay, t1]
        · simp [worldAfterPlay, t1, t2, List.range_succ]
        · simp only [worldAfterPlay, freshTrack, t3, t1, List.range_succ]
      obtain ⟨r1, r2, r3⟩ := ih q v (k + 1) hq' h
      have hpl : q.Playlist = p.Playlist := by subst hq; rfl
      refine ⟨?_, by rw [r2, hpl], ?_⟩
      · have : k + (i :: rest).length = k + 1 + rest.length := by simp; ring
        rw [this]; exact r1
      · intro hne
        by_cases hr : rest = []
        · subst hr
          simp only [Player.plays, Prod.mk.injEq] at h
          obtain ⟨rfl, rfl, _⟩ := h
          subst hq
          refine ⟨by simp, _, rfl, by simp [freshTrack], ?_⟩
          simp [freshTrack, t1]
        · obtain ⟨u1, t, u2, u3, u4⟩ := r3 hr
          rw [List.getLast_cons hr]
          refine ⟨u1, t, u2, by rw [u3, hpl], ?_⟩
          rw [u4]; simp; ring

/-- C4, as amended: after `N ≥ 1` consecutive successful `Play(i)` calls on a
new player, exactly one track has an open stream: the one in `Cur`, whose
`Path` is `Playlist[i]` of the last call and whose stream is the last one
opened, and the stream of every track opened before it has been closed.  All
`N` graphs have been handed to the sink and the player has removed none. -/
theorem one_open_stream (env : Env) (paths : List String) (is : List ℤ) (hne : is ≠ [])
    (p' : Player) (w' : World)
    (h : Player.plays env (NewPlayer paths) World.init is = (p', w', none)) :
    (∃ t, p'.Cur = some t ∧ t.Path = paths.getD (is.getLast hne).toNat "" ∧
        t.Stream = is.length - 1 ∧ t.Stream ∉ w'.closedStreams) ∧
    p'.Idx = is.getLast hne ∧
    w'.files = is.length ∧
    w'.closedStreams = List.range (is.length - 1) ∧
    w'.registered = (List.range is.length).map installedGraph := by
  have ht : Tidy 0 (NewPlayer paths) World.init := ⟨rfl, rfl, rfl⟩
  obtain ⟨⟨t1, t2, t3⟩, _, r3⟩ := plays_tidy env is _ _ 0 p' w' ht h
  obtain ⟨u1, t, u2, u3, u4⟩ := r3 hne
  simp only [zero_add] at t1 t2 t3 u4
  have hlen : is.length = (is.length - 1) + 1 := by omega
  have hs : t.Stream = is.length - 1 := by omega
  have hc : w'.closedStreams = List.range (is.length - 1) := by
    rw [u2] at t3
    simp only at t3
    rw [hlen, List.range_succ, ← hs] at t3
    have := List.append_inj_left' t3 rfl
    rw [this, hs]
  refine ⟨⟨t, u2, u3, hs, ?_⟩, u1, t1, hc, t2⟩
  rw [hc, hs]
  simp

theorem plays_demo :
    Player.plays Env.allOk (NewPlayer demoPlaylist) World.init [0, 1]
      = ({ Playlist := demoPlaylist, Idx := 1, inited := true, batchSize := 44100 / 10,
           Cur := some (freshTrack "b.mp3" 1 44100) },
         { files := 2, closedFiles := [], closedStreams := [0], speakerInit := some (44100, 4410),
           registered := [installedGraph 0, installedGraph 1] }, none) := by
  simp [Player.plays, Player.Play, Player.closeCurrent, Player.openTrack, NewPlayer, demoPlaylist,
    Env.allOk, World.init, installedGraph, freshTrack]

/-- C4 after `Play(0); Play(1)` on the two-track playlist. -/
theorem one_open_stream_witness :
    (∃ t, (some (freshTrack "b.mp3" 1 44100)) = some t ∧
        t.Path = demoPlaylist.getD (([0, 1] : List ℤ).getLast (by decide)).toNat "" ∧
        t.Stream = ([0, 1] : List ℤ).length - 1 ∧ t.Stream ∉ [0]) ∧
    (1 : ℤ) = ([0, 1] : List ℤ).getLast (by decide) ∧
    2 = ([0, 1] : List ℤ).length ∧
    [0] = List.range (([0, 1] : List ℤ).length - 1) ∧
    [installedGraph 0, installedGraph 1]
      = (List.range ([0, 1] : List ℤ).length).map installedGraph :=
  one_open_stream Env.allOk demoPlaylist [0, 1] (by decide) _ _ plays_demo

/-- C4 fails after `Play(0); Play(1)`: both calls succeed, the stream of the
first track has been closed, and its graph is still among those handed to the
sink, next to the second track's. -/
theorem old_graph_stays_registered :
    (Player.plays Env.allOk (NewPlayer demoPlaylist) World.init [0, 1]).2.2 = none ∧
    (Player.plays Env.allOk (NewPlayer demoPlaylist) World.init [0, 1]).2.1.registered
      = [installedGraph 0, installedGraph 1] ∧
    (Player.plays Env.allOk (NewPlayer demoPlaylist) World.init [0, 1]).2.1.closedStreams = [0] := by
  rw [plays_demo]
  exact ⟨rfl, rfl, rfl⟩

/-- C1, as amended: `Play(i)` with `i` out of the playlist bounds returns the
index error and leaves `Idx`, the playlist and the sink as they were, but the
track that was current does not stay current: `Cur` is nil afterwards and that
track's stream has been closed. -/
theorem Play_out_of_bounds (env : Env) (p : Player) (w : World) (i : ℤ)
    (h : i < 0 ∨ (p.Playlist.length : ℤ) ≤ i) :
    Player.Play env p w i
      = ({ p with Cur := none },
         { w with closedStreams := w.closedStreams ++
             (match p.Cur with
              | some t => [t.Stream]
              | none => []) },
         some Err.indexOutOfBounds) := by
  obtain ⟨pl, idx, cur, ini, bs⟩ := p
  cases cur with
  | none => simp [Player.Play, Player.closeCurrent, Player.openTrack, h]
  | some t => simp [Player.Play, Player.closeCurrent, Player.openTrack, h]

theorem Play_demo_zero :
    Player.Play Env.allOk (NewPlayer demoPlaylist) World.init 0
      = ({ Playlist := demoPlaylist, Idx := 0, inited := true, batchSize := 44100 / 10,
           Cur := some { Path := "a.mp3", Stream := 0, Format := 44100,
                         Ctrl := some { Paused := false },
                         Volume := some { Base := F64.fin 2, Volume := F64.fin 0 },
                         Meter := some (NewLevelMeter
                           (Streamer.volume (Streamer.ctrl (Streamer.decoder 0))) 44100),
                         Finished := false } },
         { files := 1, closedFiles := [], closedStreams := [], speakerInit := some (44100, 4410),
           registered := [installedGraph 0] }, none) := by
  simp [Player.Play, Player.closeCurrent, Player.openTrack, NewPlayer, demoPlaylist, Env.allOk,
    World.init, installedGraph]

/-- C1 at the state `Play(0)` leaves on the two-track playlist, where
`a.mp3` is current: `Play(5)` returns the index error, `Cur` becomes nil and
stream 0 is closed. -/
theorem Play_out_of_bounds_witness :
    Player.Play Env.allOk (NewPlayer demoPlaylist) World.init 0
      = (playingDemo, playingWorld, none) ∧
    playingDemo.Cur = some (freshTrack "a.mp3" 0 44100) ∧
    Player.Play Env.allOk playingDemo playingWorld 5
      = ({ playingDemo with Cur := none },
         { playingWorld with closedStreams := [0] },
         some Err.indexOutOfBounds) :=
  ⟨Play_demo_zero, rfl,
   Play_out_of_bounds Env.allOk playingDemo playingWorld 5 (Or.inr (by decide))⟩

/-- C1 fails on the two-track playlist: `Play(0)` succeeds and makes a track
current; `Play(5)` then leaves `Cur` nil and stream 0 closed. -/
theorem Play_out_of_bounds_drops_current :
    (Player.Play Env.allOk (NewPlayer demoPlaylist) World.init 0).2.2 = none ∧
    (Player.Play Env.allOk (NewPlayer demoPlaylist) World.init 0).1.Cur ≠ none ∧
    (Player.Play Env.allOk
        (Player.Play Env.allOk (NewPlayer demoPlaylist) World.init 0).1
        (Player.Play Env.allOk (NewPlayer demoPlaylist) World.init 0).2.1 5).1.Cur = none ∧
    (Player.Play Env.allOk
        (Player.Play Env.allOk (NewPlayer demoPlaylist) World.init 0).1
        (Player.Play Env.allOk (NewPlayer demoPlaylist) World.init 0).2.1 5).2.1.closedStreams
      = [0] := by
  rw [Play_demo_zero]
  simp [Player.Play, Player.closeCurrent, Player.openTrack, demoPlaylist]

/-- C9, as amended: for every player state with a current track whose `Ctrl`
is not nil, `PauseToggle()` flips the track's `Paused` flag and changes
nothing else (`Idx`, the playlist, the track and its volume are as before),
and calling it twice gives back the original state; with no current track
`PauseToggle()` changes nothing. -/
theorem PauseToggle_spec (p : Player) :
    (∀ t c, p.Cur = some t → t.Ctrl = some c →
      Player.PauseToggle p
        = some { p with Cur := some { t with Ctrl := some { Paused := !c.Paused } } } ∧
      (Player.PauseToggle p).bind Player.PauseToggle = some p) ∧
    (p.Cur = none → Player.PauseToggle p = some p) := by
  obtain ⟨pl, idx, cur, ini, bs⟩ := p
  constructor
  · rintro t c h hc
    simp only at h; subst h
    obtain ⟨pa, st, fo, ct, vo, me, fi⟩ := t
    simp only at hc; subst hc
    obtain ⟨b⟩ := c
    simp [Player.PauseToggle]
  · rintro h; simp only at h; subst h; rfl

theorem c02_eq : F64.c02 = F64.fin (3602879701896397 / 2 ^ 54) := by decide!

theorem sumSquares_eq (buf : Buf) (k i : ℕ) (s : F64) (h : i + k ≤ buf.length) :
    LevelMeter.sumSquares buf k i s
      = some (((buf.drop i).take k).foldl
          (fun s f => F64.add s (F64.add (F64.mul f.1 f.1) (F64.mul f.2 f.2))) s) := by
  induction k generalizing i s with
  | zero => simp [LevelMeter.sumSquares]
  | succ k ih =>
    have hi : i < buf.length := by omega
    have hd : buf.drop i = buf[i] :: buf.drop (i + 1) := (List.getElem_cons_drop _ _ hi).symm
    rw [LevelMeter.sumSquares, List.get?_eq_getElem?, List.getElem?_eq_getElem hi]
    simp only
    rw [ih (i + 1) _ (by omega), hd, List.take_succ_cons, List.foldl_cons]
    rfl

/-- C7: when the source delivers `n ≤ 0` frames `Stream` leaves the meter
unchanged; when it delivers `n > 0` frames the smoothed value becomes
`ema*(1-a) + rms*a` with `rms = sqrt(sum_{i<n}(l_i^2 + r_i^2) / (2n))`, every
operation being the float64 one and the sum running in order; in both cases
`Stream` returns the source's buffer and `(n, ok)`; and `NewLevelMeter` sets
`a` to the float64 `0.2` and the level to 0. -/
theorem Stream_update_rule (m : LevelMeter) (src : Buf → StreamResult) (buf : Buf) :
    ((src buf).n ≤ 0 → LevelMeter.Stream m src buf = some (m, src buf)) ∧
    (0 < (src buf).n → (src buf).n ≤ (src buf).buf.length →
      LevelMeter.Stream m src buf
        = some ({ m with
                  ema := specEma m.ema m.a (specRms ((src buf).buf.take (src buf).n.toNat) (src buf).n),
                  rms := specEma m.ema m.a (specRms ((src buf).buf.take (src buf).n.toNat) (src buf).n) },
                src buf)) ∧
    (∀ s sr, (NewLevelMeter s sr).a = F64.fin (3602879701896397 / 2 ^ 54) ∧
      (NewLevelMeter s sr).ema = F64.fin 0 ∧ (NewLevelMeter s sr).rms = F64.fin 0) := by
  refine ⟨?_, ?_, ?_⟩
  · intro h
    simp [LevelMeter.Stream, h]
  · intro h0 h1
    have hn : ¬ (src buf).n ≤ 0 := not_le.mpr h0
    have hk : 0 + (src buf).n.toNat ≤ (src buf).buf.length := by omega
    simp only [LevelMeter.Stream, if_neg hn, sumSquares_eq _ _ _ _ hk, List.drop_zero]
    rfl
  · intro s sr
    exact ⟨c02_eq, rfl, rfl⟩

theorem installedGraph_pull (pow : F64 → F64 → F64) (dec : Buf → StreamResult) (h : ℕ)
    (t : Track) (buf : Buf) (c : Ctrl) (v : Volume) (hc : t.Ctrl = some c)
    (hv : t.Volume = some v) :
    ∃ r f, Streamer.Stream pow dec (installedGraph h) t buf = some ({ t with Finished := f }, r) := by
  obtain ⟨pa, st, fo, ct, vo, me, fi⟩ := t
  simp only at hc hv
  subst hc hv
  by_cases hp : c.Paused = true
  · simp only [installedGraph, Streamer.Stream, hp, if_true]
    exact ⟨_, _, rfl⟩
  · simp only [installedGraph, Streamer.Stream, hp]
    simp only [Bool.false_eq_true, if_false]
    split_ifs
    · exact ⟨_, _, rfl⟩
    · exact ⟨_, _, rfl⟩

theorem pulls_keep_meter (pow : F64 → F64 → F64) (h : ℕ)
    (pulls : List ((Buf → StreamResult) × Buf)) (p : Player) (t : Track) (c : Ctrl) (v : Volume)
    (hcur : p.Cur = some t) (hc : t.Ctrl = some c) (hv : t.Volume = some v) :
    ∃ f, Player.pulls pow (installedGraph h) p pulls
      = some { p with Cur := some { t with Finished := f } } := by
  induction pulls generalizing p t with
  | nil =>
    refine ⟨t.Finished, ?_⟩
    obtain ⟨pl, idx, cur, ini, bs⟩ := p
    simp only at hcur
    subst hcur
    rfl
  | cons x rest ih =>
    obtain ⟨dec, buf⟩ := x
    obtain ⟨r, f, hs⟩ := installedGraph_pull pow dec h t buf c v hc hv
    obtain ⟨f', hf'⟩ := ih { p with Cur := some { t with Finished := f } } { t with Finished := f }
      rfl hc hv
    refine ⟨f', ?_⟩
    simp only [Player.pulls, Player.pull, hcur, hs, hf']

/-- C2, as the code behaves: on the two-track playlist `Play(0)` succeeds and
hands the sink the graph `Seq(vol, callback)`, which does not hold the meter;
whatever run of blocks the sink pulls through that graph, the pulls succeed
and `CurrentLevel()` is still 0, not positive. -/
theorem level_stays_zero (pow : F64 → F64 → F64) (pulls : List ((Buf → StreamResult) × Buf)) :
    (Player.Play Env.allOk (NewPlayer demoPlaylist) World.init 0).2.2 = none ∧
    (Player.Play Env.allOk (NewPlayer demoPlaylist) World.init 0).2.1.registered
      = [Streamer.seqCallback (Streamer.volume (Streamer.ctrl (Streamer.decoder 0)))] ∧
    ∃ p, Player.pulls pow
          (Streamer.seqCallback (Streamer.volume (Streamer.ctrl (Streamer.decoder 0))))
          (Player.Play Env.allOk (NewPlayer demoPlaylist) World.init 0).1 pulls = some p ∧
      (Player.CurrentLevel p).1 = F64.fin 0 := by
  rw [Play_demo_zero]
  refine ⟨rfl, rfl, ?_⟩
  obtain ⟨f, hf⟩ := pulls_keep_meter pow 0 pulls
    { Playlist := demoPlaylist, Idx := 0, inited := true, batchSize := 44100 / 10,
      Cur := some (freshTrack "a.mp3" 0 44100) }
    (freshTrack "a.mp3" 0 44100) ⟨false⟩ ⟨F64.fin 2, F64.fin 0⟩ rfl rfl rfl
  refine ⟨_, hf, ?_⟩
  simp only [Player.CurrentLevel, LevelMeter.Level, NewLevelMeter, F64.lt, F64.gt, freshTrack]
  norm_num

theorem sqrtQ_one : sqrtQ 1 = 1 := by
  have h1 : Int.log 2 (1 : ℚ) = 0 := by decide!
  unfold sqrtQ
  simp only [h1]
  norm_num

/-- Had the meter been the stage handed to the sink, one block holding the
frame `(1, 1)` (at gain 1) would have raised the level to the float64 `0.2`. -/
theorem meter_stage_would_respond :
    Streamer.Stream (fun _ _ => F64.fin 1) (fun b => (⟨b, 1, true⟩ : StreamResult))
        (Streamer.meter (Streamer.volume (Streamer.ctrl (Streamer.decoder 0))))
        (freshTrack "a.mp3" 0 44100) [(F64.fin 1, F64.fin 1)]
      = some (loudTrack, ⟨[(F64.fin 1, F64.fin 1)], 1, true⟩) ∧
    (Player.CurrentLevel
        { Playlist := demoPlaylist, Idx := 0, inited := true, batchSize := 44100 / 10,
          Cur := some loudTrack }).1 = F64.fin (3602879701896397 / 2 ^ 54) := by
  have e1 : F64.mul (F64.fin 1) (F64.fin 1) = F64.fin 1 := by decide!
  have e2 : F64.add (F64.fin 1) (F64.fin 1) = F64.fin 2 := by decide!
  have e3 : F64.add (F64.fin 0) (F64.fin 2) = F64.fin 2 := by decide!
  have e4 : F64.mul (F64.fin 2) (F64.ofInt 1) = F64.fin 2 := by decide!
  have e5 : F64.div (F64.fin 2) (F64.fin 2) = F64.fin 1 := by decide!
  have e6 : F64.sqrt (F64.fin 1) = F64.fin 1 := by simp [F64.sqrt, sqrtQ_one]
  have e7 : F64.add (F64.mul (F64.fin 0) (F64.sub (F64.fin 1) F64.c02)) (F64.mul (F64.fin 1) F64.c02)
      = F64.fin (3602879701896397 / 2 ^ 54) := by decide!
  constructor
  · simp only [Streamer.Stream, freshTrack, LevelMeter.Stream, NewLevelMeter, loudTrack]
    simp [LevelMeter.sumSquares, e1, e2, e3, e4, e5, e6, e7]
  · simp only [Player.CurrentLevel, LevelMeter.Level, NewLevelMeter, F64.lt, F64.gt, freshTrack,
      loudTrack]
    norm_num

theorem ofRat_of_isF64 (e : ℚ) (h : isF64 e) : F64.ofRat e = F64.fin e := h

/-- C9 at the state `Play(0)` leaves on the two-track playlist: one toggle
pauses the track and changes nothing else, two toggles give back the state. -/
theorem PauseToggle_spec_witness :
    Player.PauseToggle playingDemo
      = some { playingDemo with
               Cur := some { freshTrack "a.mp3" 0 44100 with Ctrl := some { Paused := true } } } ∧
    (Player.PauseToggle playingDemo).bind Player.PauseToggle = some playingDemo :=
  (PauseToggle_spec playingDemo).1 (freshTrack "a.mp3" 0 44100) { Paused := false } rfl rfl

/-- C9 fails at a current track whose `Ctrl` is nil: there is no flag to flip
and `PauseToggle()` panics on the nil dereference. -/
theorem PauseToggle_nil_ctrl :
    (∃ t, nilCtrlPlayer.Cur = some t) ∧ Player.PauseToggle nilCtrlPlayer = none :=
  ⟨⟨_, rfl⟩, rfl⟩

end SimpleMp3
